import Mathlib

namespace LanguagesRs

/-- The `Value` enum of `src/value.rs`: parsed structured data restricted to
strings, arrays and objects.  Rust's `HashMap<String, Value>` is modelled as an
association list of key/value pairs. -/
inductive Value where
  | string (s : String)
  | array (xs : List Value)
  | object (fields : List (String × Value))

/-- The `serde_json::Value` input tree handed to `Value::from_value` by the
external JSON parser (feature `with-json`). -/
inductive JsonValue where
  | null
  | bool (b : Bool)
  | num (n : Int)
  | str (s : String)
  | arr (xs : List JsonValue)
  | obj (fields : List (String × JsonValue))

/-- Outcome of running a Rust function that can return `Ok`, return an
`anyhow::Error`, or panic the process (`expect`/`unwrap`). -/
inductive Run (α : Type) where
  | ok (a : α)
  | err
  | panicked

/-- Model of `Value::is_string` (`src/value.rs`). -/
def Value.is_string : Value → Bool
  | .string _ => true
  | _ => false

/-- Model of `Value::is_array` (`src/value.rs`). -/
def Value.is_array : Value → Bool
  | .array _ => true
  | _ => false

/-- Model of `Value::is_object` (`src/value.rs`). -/
def Value.is_object : Value → Bool
  | .object _ => true
  | _ => false

/-- Model of `Value::get_string` (`src/value.rs`). -/
def Value.get_string : Value → Option String
  | .string s => some s
  | _ => none

/-- Model of `Value::get_array` (`src/value.rs`). -/
def Value.get_array : Value → Option (List Value)
  | .array xs => some xs
  | _ => none

/-- Model of `Value::get_object` (`src/value.rs`). -/
def Value.get_object : Value → Option (List (String × Value))
  | .object fields => some fields
  | _ => none

/-- Model of `HashMap::get(&key)` on the association-list model: first binding of the
key, if any. -/
def lookupAL (m : List (String × Value)) (k : String) : Option Value :=
  match m with
  | [] => none
  | (k₁, v) :: rest => if k₁ = k then some v else lookupAL rest k

/-- Model of `HashMap::insert(key, value)` on the association-list model: replace the
existing binding of the key, or append a new one. -/
def insertAL (m : List (String × Value)) (k : String) (v : Value) :
    List (String × Value) :=
  match m with
  | [] => [(k, v)]
  | (k₁, v₁) :: rest =>
      if k₁ = k then (k₁, v) :: rest else (k₁, v₁) :: insertAL rest k v

mutual

/-- Model of `Value::from_value` for the `with-json` build (`src/value.rs`, lines
54-80).  A string maps to `Value::String`; an array maps each element with
`from_value(..).expect("Invalid format.")`, so any failing element PANICS the
process (and an inner panic propagates); an object inserts each entry into a
fresh map, propagating element errors with `?`; any other node (null, bool,
number) returns an `anyhow` error. -/
def fromValueJson : JsonValue → Run Value
  | .str s => .ok (.string s)
  | .arr xs =>
      match fromValueJsonList xs with
      | .ok vs => .ok (.array vs)
      | .err => .panicked
      | .panicked => .panicked
  | .obj fields =>
      match fromValueJsonFields [] fields with
      | .ok m => .ok (.object m)
      | .err => .err
      | .panicked => .panicked
  | _ => .err

/-- Left-to-right elaboration of the elements of a JSON array by
`from_value`, stopping at the first element that errors or panics. -/
def fromValueJsonList : List JsonValue → Run (List Value)
  | [] => .ok []
  | x :: xs =>
      match fromValueJson x with
      | .ok v =>
          match fromValueJsonList xs with
          | .ok vs => .ok (v :: vs)
          | .err => .err
          | .panicked => .panicked
      | .err => .err
      | .panicked => .panicked

/-- Left-to-right elaboration of the entries of a JSON object by
`from_value` (`new_data.insert(key, from_value(value)?)` in iteration order),
accumulating the map and stopping at the first entry that errors or panics. -/
def fromValueJsonFields (acc : List (String × Value)) :
    List (String × JsonValue) → Run (List (String × Value))
  | [] => .ok acc
  | (k, x) :: xs =>
      match fromValueJson x with
      | .ok v => fromValueJsonFields (insertAL acc k v) xs
      | .err => .err
      | .panicked => .panicked

end

/-- Model of `Value::from_string` for the `with-json` build (`src/value.rs`, lines
122-125): `Self::from_value(serde_json::from_str(&text)?)`.  The external
`serde_json::from_str` call is modelled by its outcome: the parsed tree, or an
error (propagated by `?`) when the text is not well-formed JSON. -/
def fromStringJson (serdeResult : Run JsonValue) : Run Value :=
  match serdeResult with
  | .ok j => fromValueJson j
  | .err => .err
  | .panicked => .panicked

/-- The `Format` enum of `src/config.rs`. -/
inductive Format where
  | JSON
  | TOML
deriving DecidableEq

/-- Model of `Format::is_json` (`src/config.rs`). -/
def Format.is_json : Format → Bool
  | .JSON => true
  | .TOML => false

/-- Model of `Format::is_toml` (`src/config.rs`). -/
def Format.is_toml : Format → Bool
  | .JSON => false
  | .TOML => true

/-- Model of `Format::get_file_extension` (`src/config.rs`, lines 29-34). -/
def Format.get_file_extension : Format → String
  | .JSON => ".json"
  | .TOML => ".toml"

/-- The distinct `anyhow::Error` messages the library constructs, one
constructor per `Error::msg` site (payloads stand in for the values formatted
into the message). -/
inductive Err where
  | notConfigured (lang : String)
  | fileNotFound (path : String)
  | notAFile (path : String)
  | parseError
  | notAnObject
  | duplicateLanguage (lang : String)
  | directoryNotFound (path : String)
  | notADirectory (path : String)
  | ioError
deriving DecidableEq

/-- What the file system holds at one path: nothing, a directory (or other
non-regular-file entry), or a regular file with its text content. -/
inductive FsEntry where
  | absent
  | dir
  | file (content : String)

/-- Model of `Path::new(base).join(child)` followed by `display()`: the child replaces
the base when absolute, otherwise it is appended after a separator. -/
def pathJoin (base child : String) : String :=
  if child.data.head? = some '/' then child else base ++ "/" ++ child

/-- The compile-time cargo feature flags `with-json` and `with-toml` consulted
by `cfg!(..)` in `src/languages.rs`. -/
structure Features where
  with_json : Bool
  with_toml : Bool

/-- The extension appended to the language code in `try_get_language`
(`src/languages.rs`, lines 64-68): chosen by `cfg!` feature tests at compile
time, falling back to the empty string. -/
def langFileExtension (feats : Features) : String :=
  if feats.with_json then ".json" else if feats.with_toml then ".toml" else ""

/-- The `Config` struct of `src/config.rs`. -/
structure Config where
  directory : String
  format : Format
  languages : List String

/-- Model of `Config::get_directory` (`src/config.rs`). -/
def Config.get_directory (c : Config) : String :=
  c.directory

/-- Model of `Config::get_format` (`src/config.rs`). -/
def Config.get_format (c : Config) : Format :=
  c.format

/-- Model of `Config::get_languages` (`src/config.rs`). -/
def Config.get_languages (c : Config) : List String :=
  c.languages

/-- Model of `Config::set_directory` (`src/config.rs`, lines 118-134), with the file
system and the outcome of `env::current_dir()` passed explicitly.  The method
mutates `self`, so it is modelled state-passing: the returned `Config` is the
receiver after the call. -/
def Config.set_directory (fs : String → FsEntry) (cwd : Run String)
    (c : Config) (new_directory : String) : Except Err Unit × Config :=
  match cwd with
  | .ok base =>
      let path := pathJoin base new_directory
      match fs path with
      | .absent => (.error (.directoryNotFound path), c)
      | .file _ => (.error (.notADirectory path), c)
      | .dir => (.ok (), { c with directory := path })
  | _ => (.error .ioError, c)

/-- Model of `Config::add_language` (`src/config.rs`, lines 189-199), state-passing for
the `&mut self` receiver. -/
def Config.add_language (c : Config) (language : String) : Except Err Unit × Config :=
  if c.languages.contains language then
    (.error (.duplicateLanguage language), c)
  else
    (.ok (), { c with languages := c.languages ++ [language] })

/-- The `LanguageTexts` struct of `src/languages/language_texts.rs`. -/
structure LanguageTexts where
  language : String
  texts : Value

/-- Model of `LanguageTexts::new` (`src/languages/language_texts.rs`, lines 25-31):
fails unless the payload is the `Object` variant. -/
def LanguageTexts.new (language : String) (texts : Value) : Except Err LanguageTexts :=
  if ¬ texts.is_object then .error .notAnObject
  else .ok ⟨language, texts⟩

/-- Model of `LanguageTexts::get_language` (`src/languages/language_texts.rs`). -/
def LanguageTexts.get_language (t : LanguageTexts) : String :=
  t.language

/-- Model of `LanguageTexts::try_get_text` (`src/languages/language_texts.rs`, lines
68-76), with the `self.texts.get_object().unwrap()` call modelled as a panic
when `get_object` returns `None`. -/
def LanguageTexts.try_get_text (t : LanguageTexts) (text : String) :
    Run (Option Value) :=
  if t.texts.is_object then
    match t.texts.get_object with
    | some m => .ok (lookupAL m text)
    | none => .panicked
  else .ok none

/-- The `Languages` struct of `src/languages.rs`: a `Config` plus the cache of
loaded `LanguageTexts`. -/
structure Languages where
  config : Config
  langs : List LanguageTexts

/-- Model of `Languages::new` (`src/languages.rs`, lines 24-29). -/
def Languages.new (config : Config) : Languages :=
  ⟨config, []⟩

/-- Model of `Languages::try_get_language` (`src/languages.rs`, lines 47-93).  The
compile-time feature flags, the feature-selected `Value::from_string` (content
text to parse outcome) and the file system are passed explicitly.  Returns the
call's outcome, the receiver after the call, and the list of file paths read
with `read_to_string`. -/
def Languages.try_get_language (feats : Features) (parse : String → Run Value)
    (fs : String → FsEntry) (s : Languages) (lang : String) :
    Run (Except Err LanguageTexts) × Languages × List String :=
  if ¬ s.config.get_languages.contains lang then
    (.ok (.error (.notConfigured lang)), s, [])
  else
    match s.langs.find? (fun t => t.get_language == lang) with
    | some t => (.ok (.ok t), s, [])
    | none =>
        match fs (pathJoin s.config.get_directory (lang ++ langFileExtension feats)) with
        | .absent =>
            (.ok (.error (.fileNotFound
              (pathJoin s.config.get_directory (lang ++ langFileExtension feats)))), s, [])
        | .dir =>
            (.ok (.error (.notAFile
              (pathJoin s.config.get_directory (lang ++ langFileExtension feats)))), s, [])
        | .file content =>
            match parse content with
            | .err => (.ok (.error .parseError), s,
                [pathJoin s.config.get_directory (lang ++ langFileExtension feats)])
            | .panicked => (.panicked, s,
                [pathJoin s.config.get_directory (lang ++ langFileExtension feats)])
            | .ok v =>
                match LanguageTexts.new lang v with
                | .error e => (.ok (.error e), s,
                    [pathJoin s.config.get_directory (lang ++ langFileExtension feats)])
                | .ok t => (.ok (.ok t), { s with langs := s.langs ++ [t] },
                    [pathJoin s.config.get_directory (lang ++ langFileExtension feats)])

/-- Model of `Languages::try_get_text_from_language` (`src/languages.rs`, lines
110-116): `Ok(self.try_get_language(lang)?.try_get_text(text))`. -/
def Languages.try_get_text_from_language (feats : Features)
    (parse : String → Run Value) (fs : String → FsEntry) (s : Languages)
    (lang text : String) : Run (Except Err (Option Value)) × Languages × List String :=
  match Languages.try_get_language feats parse fs s lang with
  | (.ok (.ok t), s₁, tr) =>
      match t.try_get_text text with
      | .ok o => (.ok (.ok o), s₁, tr)
      | _ => (.panicked, s₁, tr)
  | (.ok (.error e), s₁, tr) => (.ok (.error e), s₁, tr)
  | (_, s₁, tr) => (.panicked, s₁, tr)

/-- The `for` loop of `load` (`src/lib.rs`, lines 102-104): resolve each code
in order, stopping at the first failure (`?`). -/
def loadLoop (feats : Features) (parse : String → Run Value)
    (fs : String → FsEntry) : List String → Languages →
    Run (Except Err Unit) × Languages × List String
  | [], s => (.ok (.ok ()), s, [])
  | lang :: rest, s =>
      match Languages.try_get_language feats parse fs s lang with
      | (.ok (.ok _), s₁, tr) =>
          match loadLoop feats parse fs rest s₁ with
          | (r, s₂, tr₁) => (r, s₂, tr ++ tr₁)
      | (.ok (.error e), s₁, tr) => (.ok (.error e), s₁, tr)
      | (_, s₁, tr) => (.panicked, s₁, tr)

/-- Model of `load` (`src/lib.rs`, lines 99-107): construct a `Languages` over the
configuration and resolve every configured code in order, returning the
`Languages` on success. -/
def load (feats : Features) (parse : String → Run Value) (fs : String → FsEntry)
    (configuration : Config) : Run (Except Err Languages) × List String :=
  match loadLoop feats parse fs configuration.get_languages
      (Languages.new configuration) with
  | (.ok (.ok _), s, tr) => (.ok (.ok s), tr)
  | (.ok (.error e), _, tr) => (.ok (.error e), tr)
  | (_, _, tr) => (.panicked, tr)

/-- Codes of the cached entries are pairwise distinct: at most one cache entry
per language code. -/
def DistinctCodes (l : List LanguageTexts) : Prop :=
  l.Pairwise (fun a b => a.language ≠ b.language)

/-- Every cached entry holds the `Object` variant of `Value`. -/
def AllObjects (l : List LanguageTexts) : Prop :=
  ∀ t ∈ l, t.texts.is_object = true

/-- The cache invariant of a `Languages` instance: at most one entry per
language code, and every entry's payload is an object. -/
def CacheInv (s : Languages) : Prop :=
  DistinctCodes s.langs ∧ AllObjects s.langs

lemma try_get_language_state (feats : Features) (parse : String → Run Value)
    (fs : String → FsEntry) (s : Languages) (lang : String) :
    (Languages.try_get_language feats parse fs s lang).2.1 = s ∨
    ∃ t : LanguageTexts,
      (Languages.try_get_language feats parse fs s lang).1 = .ok (.ok t) ∧
      t.get_language = lang ∧ t.texts.is_object = true ∧
      (Languages.try_get_language feats parse fs s lang).2.1 = ⟨s.config, s.langs ++ [t]⟩ ∧
      (Languages.try_get_language feats parse fs s lang).2.2
        = [pathJoin s.config.get_directory (lang ++ langFileExtension feats)] ∧
      s.langs.find? (fun u => u.get_language == lang) = none ∧
      s.config.get_languages.contains lang = true := by
  by_cases hcont : s.config.get_languages.contains lang = true
  · have hmem : lang ∈ s.config.get_languages := by simpa using hcont
    cases hfind : s.langs.find? (fun u => u.get_language == lang) with
    | some t => left; simp [Languages.try_get_language, hmem, hfind]
    | none =>
      cases hfs : fs (pathJoin s.config.get_directory (lang ++ langFileExtension feats)) with
      | absent => left; simp [Languages.try_get_language, hmem, hfind, hfs]
      | dir => left; simp [Languages.try_get_language, hmem, hfind, hfs]
      | file content =>
        cases hparse : parse content with
        | err => left; simp [Languages.try_get_language, hmem, hfind, hfs, hparse]
        | panicked => left; simp [Languages.try_get_language, hmem, hfind, hfs, hparse]
        | ok v =>
          by_cases hobj : v.is_object = true
          · right
            refine ⟨⟨lang, v⟩, ?_, ?_, ?_, ?_, ?_, ?_, ?_⟩
            · simp [Languages.try_get_language, LanguageTexts.new, hmem, hfind, hfs, hparse, hobj]
            · rfl
            · exact hobj
            · simp [Languages.try_get_language, LanguageTexts.new, hmem, hfind, hfs, hparse, hobj]
            · simp [Languages.try_get_language, LanguageTexts.new, hmem, hfind, hfs, hparse, hobj]
            · rfl
            · exact hcont
          · left
            simp [Languages.try_get_language, LanguageTexts.new,
              hmem, hfind, hfs, hparse, hobj]
  · have hmem : lang ∉ s.config.get_languages := by
      intro h
      exact hcont (by simpa using h)
    left
    simp [Languages.try_get_language, hmem]

lemma try_get_language_not_configured (feats : Features) (parse : String → Run Value)
    (fs : String → FsEntry) (s : Languages) (lang : String)
    (hmem : lang ∉ s.config.get_languages) :
    Languages.try_get_language feats parse fs s lang
      = (.ok (.error (.notConfigured lang)), s, []) := by
  simp [Languages.try_get_language, hmem]

lemma try_get_language_hit (feats : Features) (parse : String → Run Value)
    (fs : String → FsEntry) (s : Languages) (lang : String) (t : LanguageTexts)
    (hmem : lang ∈ s.config.get_languages)
    (hfind : s.langs.find? (fun u => u.get_language == lang) = some t) :
    Languages.try_get_language feats parse fs s lang = (.ok (.ok t), s, []) := by
  simp [Languages.try_get_language, hmem, hfind]

lemma try_get_language_ok_cases (feats : Features) (parse : String → Run Value)
    (fs : String → FsEntry) (s : Languages) (lang : String) (t : LanguageTexts)
    (h : (Languages.try_get_language feats parse fs s lang).1 = .ok (.ok t)) :
    lang ∈ s.config.get_languages ∧
    ((s.langs.find? (fun u => u.get_language == lang) = some t ∧
      (Languages.try_get_language feats parse fs s lang).2.1 = s ∧
      (Languages.try_get_language feats parse fs s lang).2.2 = []) ∨
     (s.langs.find? (fun u => u.get_language == lang) = none ∧
      t.get_language = lang ∧ t.texts.is_object = true ∧
      (Languages.try_get_language feats parse fs s lang).2.1 = ⟨s.config, s.langs ++ [t]⟩)) := by
  by_cases hcont : s.config.get_languages.contains lang = true
  · have hmem : lang ∈ s.config.get_languages := by simpa using hcont
    refine ⟨hmem, ?_⟩
    cases hfind : s.langs.find? (fun u => u.get_language == lang) with
    | some t₁ =>
      have ht : t₁ = t := by
        have := h
        simp [Languages.try_get_language, hmem, hfind] at this
        exact this
      subst ht
      exact Or.inl ⟨rfl, by simp [Languages.try_get_language, hmem, hfind],
        by simp [Languages.try_get_language, hmem, hfind]⟩
    | none =>
      cases hfs : fs (pathJoin s.config.get_directory (lang ++ langFileExtension feats)) with
      | absent => simp [Languages.try_get_language, hmem, hfind, hfs] at h
      | dir => simp [Languages.try_get_language, hmem, hfind, hfs] at h
      | file content =>
        cases hparse : parse content with
        | err => simp [Languages.try_get_language, hmem, hfind, hfs, hparse] at h
        | panicked => simp [Languages.try_get_language, hmem, hfind, hfs, hparse] at h
        | ok v =>
          by_cases hobj : v.is_object = true
          · have ht : (⟨lang, v⟩ : LanguageTexts) = t := by
              have := h
              simp [Languages.try_get_language, LanguageTexts.new,
                hmem, hfind, hfs, hparse, hobj] at this
              exact this
            refine Or.inr ⟨rfl, ?_, ?_, ?_⟩
            · rw [← ht]; rfl
            · rw [← ht]; exact hobj
            · rw [← ht]
              simp [Languages.try_get_language, LanguageTexts.new,
                hmem, hfind, hfs, hparse, hobj]
          · simp [Languages.try_get_language, LanguageTexts.new,
              hmem, hfind, hfs, hparse, hobj] at h
  · have hmem : lang ∉ s.config.get_languages := by
      intro hx
      exact hcont (by simpa using hx)
    simp [Languages.try_get_language, hmem] at h

lemma find_append_of_none {α : Type} (p : α → Bool) (l₁ l₂ : List α)
    (h : l₁.find? p = none) : (l₁ ++ l₂).find? p = l₂.find? p := by
  induction l₁ with
  | nil => rfl
  | cons x xs ih =>
    by_cases hx : p x = true
    · simp [List.find?, hx] at h
    · simp only [List.find?_cons_of_neg, hx, List.cons_append, Bool.not_eq_true] at h ⊢
      exact ih h

lemma find_append_of_some {α : Type} (p : α → Bool) (l₁ l₂ : List α)
    (t : α) (h : l₁.find? p = some t) : (l₁ ++ l₂).find? p = some t := by
  induction l₁ with
  | nil => simp [List.find?] at h
  | cons x xs ih =>
    by_cases hx : p x = true
    · simp only [List.find?_cons_of_pos, hx, List.cons_append] at h ⊢
      exact h
    · simp only [List.find?_cons_of_neg, hx, List.cons_append, Bool.not_eq_true] at h ⊢
      exact ih h

lemma try_get_language_replay (feats : Features) (parse : String → Run Value)
    (fs : String → FsEntry) (s : Languages) (lang : String) (t : LanguageTexts)
    (h : (Languages.try_get_language feats parse fs s lang).1 = .ok (.ok t)) :
    Languages.try_get_language feats parse fs
      (Languages.try_get_language feats parse fs s lang).2.1 lang
      = (.ok (.ok t), (Languages.try_get_language feats parse fs s lang).2.1, []) := by
  obtain ⟨hmem, hcases⟩ := try_get_language_ok_cases feats parse fs s lang t h
  rcases hcases with ⟨hfind, hstate, -⟩ | ⟨hfind, hlang, -, hstate⟩
  · rw [hstate]
    exact try_get_language_hit feats parse fs s lang t hmem hfind
  · rw [hstate]
    refine try_get_language_hit feats parse fs _ lang t ?_ ?_
    · simpa using hmem
    · have hpred : (fun u : LanguageTexts => u.get_language == lang) t = true := by
        simp [hlang]
      calc (Languages.mk s.config (s.langs ++ [t])).langs.find?
              (fun u => u.get_language == lang)
          = ([t].find? fun u => u.get_language == lang) :=
            find_append_of_none _ s.langs [t] hfind
        _ = some t := by simp [List.find?, hpred]

lemma try_get_language_ok_find (feats : Features) (parse : String → Run Value)
    (fs : String → FsEntry) (s : Languages) (lang : String) (t : LanguageTexts)
    (h : (Languages.try_get_language feats parse fs s lang).1 = .ok (.ok t)) :
    lang ∈ (Languages.try_get_language feats parse fs s lang).2.1.config.get_languages ∧
    (Languages.try_get_language feats parse fs s lang).2.1.langs.find?
      (fun u => u.get_language == lang) = some t ∧
    (Languages.try_get_language feats parse fs s lang).2.1.config = s.config := by
  obtain ⟨hmem, hcases⟩ := try_get_language_ok_cases feats parse fs s lang t h
  rcases hcases with ⟨hfind, hstate, -⟩ | ⟨hfind, hlang, -, hstate⟩
  · rw [hstate]
    exact ⟨hmem, hfind, rfl⟩
  · rw [hstate]
    refine ⟨hmem, ?_, rfl⟩
    have hpred : (fun u : LanguageTexts => u.get_language == lang) t = true := by
      simp [hlang]
    calc (Languages.mk s.config (s.langs ++ [t])).langs.find?
            (fun u => u.get_language == lang)
        = ([t].find? fun u => u.get_language == lang) :=
          find_append_of_none _ s.langs [t] hfind
      _ = some t := by simp [List.find?, hpred]

lemma try_get_language_idem (feats : Features) (parse : String → Run Value)
    (fs : String → FsEntry) (s : Languages) (lang : String) :
    (Languages.try_get_language feats parse fs
      (Languages.try_get_language feats parse fs s lang).2.1 lang).1
      = (Languages.try_get_language feats parse fs s lang).1 := by
  rcases try_get_language_state feats parse fs s lang with hstate | ⟨t, hres, -, -, -, -, -, -⟩
  · rw [hstate]
  · rw [try_get_language_replay feats parse fs s lang t hres, hres]

lemma try_text_out (feats : Features) (parse : String → Run Value)
    (fs : String → FsEntry) (s : Languages) (lang text : String) :
    (Languages.try_get_text_from_language feats parse fs s lang text).2.1
      = (Languages.try_get_language feats parse fs s lang).2.1 ∧
    (Languages.try_get_text_from_language feats parse fs s lang text).2.2
      = (Languages.try_get_language feats parse fs s lang).2.2 := by
  unfold Languages.try_get_text_from_language
  rcases h : Languages.try_get_language feats parse fs s lang with ⟨r, s₁, tr⟩
  rcases r with x | - | -
  · rcases x with e | t
    · simp
    · rcases ht : t.try_get_text text with o | - | - <;> simp [ht]
  · simp
  · simp

lemma try_get_language_ok_object (feats : Features) (parse : String → Run Value)
    (fs : String → FsEntry) (s : Languages) (lang : String) (t : LanguageTexts)
    (hinv : CacheInv s)
    (h : (Languages.try_get_language feats parse fs s lang).1 = .ok (.ok t)) :
    t.texts.is_object = true := by
  obtain ⟨-, hcases⟩ := try_get_language_ok_cases feats parse fs s lang t h
  rcases hcases with ⟨hfind, -, -⟩ | ⟨-, -, hobj, -⟩
  · exact hinv.2 t (List.mem_of_find?_eq_some hfind)
  · exact hobj

lemma loadLoop_append_err (feats : Features) (parse : String → Run Value)
    (fs : String → FsEntry) (xs ys : List String) (s s₁ : Languages)
    (tr : List String) (e : Err)
    (h : loadLoop feats parse fs xs s = (.ok (.error e), s₁, tr)) :
    loadLoop feats parse fs (xs ++ ys) s = (.ok (.error e), s₁, tr) := by
  induction xs generalizing s tr with
  | nil => simp [loadLoop] at h
  | cons lang rest ih =>
    rcases hstep : Languages.try_get_language feats parse fs s lang with ⟨r, s', tr'⟩
    rcases r with x | - | -
    · rcases x with e₁ | t
      · have hh : (Run.ok (Except.error e₁), s', tr')
            = ((Run.ok (Except.error e) : Run (Except Err Unit)), s₁, tr) := by
          have := h
          simp only [loadLoop, hstep] at this
          exact this
        simp only [Prod.mk.injEq, Run.ok.injEq, Except.error.injEq] at hh
        obtain ⟨he, hs, htr⟩ := hh
        subst he hs htr
        simp only [List.cons_append, loadLoop, hstep]
      · rcases hrest : loadLoop feats parse fs rest s' with ⟨r₂, s₂, tr₂⟩
        have hh : ((r₂, s₂, tr' ++ tr₂) : Run (Except Err Unit) × Languages × List String)
            = (.ok (.error e), s₁, tr) := by
          have := h
          simp only [loadLoop, hstep, hrest] at this
          exact this
        simp only [Prod.mk.injEq] at hh
        obtain ⟨hr₂, hs₂, htr⟩ := hh
        subst hr₂ hs₂
        have hys := ih s' tr₂ hrest
        simp only [List.cons_append, loadLoop, hstep, List.append_eq, hys, ← htr]
    · have := h
      simp only [loadLoop, hstep, Prod.mk.injEq] at this
      exact absurd this.1 (by simp)
    · have := h
      simp only [loadLoop, hstep, Prod.mk.injEq] at this
      exact absurd this.1 (by simp)

lemma loadLoop_append_ok (feats : Features) (parse : String → Run Value)
    (fs : String → FsEntry) (xs ys : List String) (s s₁ : Languages)
    (tr : List String)
    (h : loadLoop feats parse fs xs s = (.ok (.ok ()), s₁, tr)) :
    loadLoop feats parse fs (xs ++ ys) s
      = ((loadLoop feats parse fs ys s₁).1, (loadLoop feats parse fs ys s₁).2.1,
         tr ++ (loadLoop feats parse fs ys s₁).2.2) := by
  induction xs generalizing s tr with
  | nil =>
    have hh : ((Run.ok (Except.ok ()) : Run (Except Err Unit)), s, ([] : List String))
        = (.ok (.ok ()), s₁, tr) := by
      have := h
      simp only [loadLoop] at this
      exact this
    simp only [Prod.mk.injEq] at hh
    obtain ⟨-, hs, htr⟩ := hh
    subst hs
    subst htr
    simp only [List.nil_append, loadLoop]
  | cons lang rest ih =>
    rcases hstep : Languages.try_get_language feats parse fs s lang with ⟨r, s', tr'⟩
    rcases r with x | - | -
    · rcases x with e₁ | t
      · have := h
        simp only [loadLoop, hstep, Prod.mk.injEq] at this
        exact absurd this.1 (by simp)
      · rcases hrest : loadLoop feats parse fs rest s' with ⟨r₂, s₂, tr₂⟩
        have hh : ((r₂, s₂, tr' ++ tr₂) : Run (Except Err Unit) × Languages × List String)
            = (.ok (.ok ()), s₁, tr) := by
          have := h
          simp only [loadLoop, hstep, hrest] at this
          exact this
        simp only [Prod.mk.injEq] at hh
        obtain ⟨hr₂, hs₂, htr⟩ := hh
        subst hr₂ hs₂
        have hys := ih s' tr₂ hrest
        simp only [List.cons_append, loadLoop, hstep, List.append_eq, hys, ← htr,
          List.append_assoc]
    · have := h
      simp only [loadLoop, hstep, Prod.mk.injEq] at this
      exact absurd this.1 (by simp)
    · have := h
      simp only [loadLoop, hstep, Prod.mk.injEq] at this
      exact absurd this.1 (by simp)

lemma loadLoop_ok_cached (feats : Features) (parse : String → Run Value)
    (fs : String → FsEntry) (xs : List String) (s s₁ : Languages)
    (tr : List String)
    (h : loadLoop feats parse fs xs s = (.ok (.ok ()), s₁, tr)) :
    s₁.config = s.config ∧ (∃ ext, s₁.langs = s.langs ++ ext) ∧
    ∀ lang ∈ xs, ∃ t, s₁.langs.find? (fun u => u.get_language == lang) = some t := by
  induction xs generalizing s tr with
  | nil =>
    have hh : ((Run.ok (Except.ok ()) : Run (Except Err Unit)), s, ([] : List String))
        = (.ok (.ok ()), s₁, tr) := by
      have := h
      simp only [loadLoop] at this
      exact this
    simp only [Prod.mk.injEq] at hh
    obtain ⟨-, hs, -⟩ := hh
    subst hs
    exact ⟨rfl, ⟨[], by simp⟩, by simp⟩
  | cons lang rest ih =>
    rcases hstep : Languages.try_get_language feats parse fs s lang with ⟨r, s', tr'⟩
    rcases r with x | - | -
    · rcases x with e₁ | t
      · have := h
        simp only [loadLoop, hstep, Prod.mk.injEq] at this
        exact absurd this.1 (by simp)
      · rcases hrest : loadLoop feats parse fs rest s' with ⟨r₂, s₂, tr₂⟩
        have hh : ((r₂, s₂, tr' ++ tr₂) : Run (Except Err Unit) × Languages × List String)
            = (.ok (.ok ()), s₁, tr) := by
          have := h
          simp only [loadLoop, hstep, hrest] at this
          exact this
        simp only [Prod.mk.injEq] at hh
        obtain ⟨hr₂, hs₂, -⟩ := hh
        subst hr₂ hs₂
        have hres : (Languages.try_get_language feats parse fs s lang).1 = .ok (.ok t) := by
          rw [hstep]
        have hstate' : (Languages.try_get_language feats parse fs s lang).2.1 = s' := by
          rw [hstep]
        obtain ⟨-, hfind', hconf'⟩ := try_get_language_ok_find feats parse fs s lang t hres
        rw [hstate'] at hfind' hconf'
        have hext' : ∃ ext, s'.langs = s.langs ++ ext := by
          rcases try_get_language_state feats parse fs s lang with hu | ⟨t₁, -, -, -, hst, -, -, -⟩
          · rw [hstate'] at hu
            exact ⟨[], by simp [hu]⟩
          · rw [hstate'] at hst
            exact ⟨[t₁], by rw [hst]⟩
        obtain ⟨hconf₁, ⟨ext₁, hext₁⟩, hall⟩ := ih s' tr₂ hrest
        refine ⟨by rw [hconf₁, hconf'], ?_, ?_⟩
        · obtain ⟨ext₀, hext₀⟩ := hext'
          exact ⟨ext₀ ++ ext₁, by rw [hext₁, hext₀, List.append_assoc]⟩
        · intro l hl
          rcases List.mem_cons.mp hl with hl | hl
          · subst hl
            refine ⟨t, ?_⟩
            rw [hext₁]
            exact find_append_of_some _ s'.langs ext₁ t hfind'
          · exact hall l hl
    · have := h
      simp only [loadLoop, hstep, Prod.mk.injEq] at this
      exact absurd this.1 (by simp)
    · have := h
      simp only [loadLoop, hstep, Prod.mk.injEq] at this
      exact absurd this.1 (by simp)

/-- C2 (code bug): `Value::from_string` is claimed to return an explicit error
result and never panic on malformed input, including malformed elements nested
inside arrays.  The code violates this: a non-string/array/object element
inside an array hits `from_value(..).expect("Invalid format.")` and panics the
process.  The JSON text `[1]` parses (by serde) to an array holding the number
1, and `from_value` then panics; the same node at top level or nested in an
object is returned as an explicit error, and a malformed text is an explicit
error via `?`. -/
theorem c2_theorem :
    fromStringJson (.ok (.arr [.num 1])) = .panicked ∧
    fromStringJson (.ok (.arr [.arr [.bool true]])) = .panicked ∧
    fromStringJson (.ok (.obj [("count", .num 5)])) = .err ∧
    fromStringJson (.ok (.num 1)) = .err ∧
    fromStringJson .err = .err :=
  ⟨rfl, rfl, rfl, rfl, rfl⟩

/-- C3: for every code not contained in the Config's enabled-language list,
`try_get_language` fails with the not-configured error, leaves the state (and
so the cache) unchanged, reads no file, and its entire outcome is independent
of the file system — regardless of the cache contents and of whether a
matching file exists on disk. -/
theorem c3_theorem :
    ∀ (feats : Features) (parse : String → Run Value) (fs fs₁ : String → FsEntry)
      (s : Languages) (lang : String),
      lang ∉ s.config.get_languages →
      Languages.try_get_language feats parse fs s lang
        = (.ok (.error (.notConfigured lang)), s, []) ∧
      Languages.try_get_language feats parse fs s lang
        = Languages.try_get_language feats parse fs₁ s lang := by
  intro feats parse fs fs₁ s lang hmem
  constructor
  · exact try_get_language_not_configured feats parse fs s lang hmem
  · rw [try_get_language_not_configured feats parse fs s lang hmem,
      try_get_language_not_configured feats parse fs₁ s lang hmem]

/-- C3 witness: the code `fr` is not in the enabled list `["en"]`, so the call
fails with the not-configured error, touches nothing, and gives the same
outcome whether the file system has a matching file everywhere or nowhere. -/
theorem c3_witness :
    Languages.try_get_language ⟨true, false⟩ (fun _ => Run.err)
      (fun _ => FsEntry.file "x") ⟨⟨"d", Format.JSON, ["en"]⟩, []⟩ "fr"
      = (.ok (.error (.notConfigured "fr")), ⟨⟨"d", Format.JSON, ["en"]⟩, []⟩, []) ∧
    Languages.try_get_language ⟨true, false⟩ (fun _ => Run.err)
      (fun _ => FsEntry.file "x") ⟨⟨"d", Format.JSON, ["en"]⟩, []⟩ "fr"
      = Languages.try_get_language ⟨true, false⟩ (fun _ => Run.err)
        (fun _ => FsEntry.absent) ⟨⟨"d", Format.JSON, ["en"]⟩, []⟩ "fr" :=
  c3_theorem ⟨true, false⟩ (fun _ => Run.err) (fun _ => FsEntry.file "x")
    (fun _ => FsEntry.absent) ⟨⟨"d", Format.JSON, ["en"]⟩, []⟩ "fr" (by decide)

/-- C8: `add_language` fails with the duplicate-language error exactly when
the code is already in the list, leaving the Config unchanged; otherwise it
appends the code at the end, keeping all other fields and the order of the
previously added codes; hence adding the same code twice fails on the second
call. -/
theorem c8_theorem :
    ∀ (c : Config) (l : String),
      (l ∈ c.languages → Config.add_language c l
        = (.error (.duplicateLanguage l), c)) ∧
      (l ∉ c.languages → Config.add_language c l
        = (.ok (), ⟨c.directory, c.format, c.languages ++ [l]⟩)) ∧
      ((Config.add_language c l).1 = .ok () →
        (Config.add_language (Config.add_language c l).2 l).1
          = .error (.duplicateLanguage l)) := by
  intro c l
  refine ⟨?_, ?_, ?_⟩
  · intro hmem
    simp [Config.add_language, hmem]
  · intro hmem
    simp [Config.add_language, hmem]
  · intro hok
    by_cases hmem : l ∈ c.languages
    · simp [Config.add_language, hmem] at hok
    · simp [Config.add_language, hmem]

/-- C8 witness: adding `en` to an empty list succeeds and appends it; adding
`en` again to the resulting Config fails with the duplicate-language error. -/
theorem c8_witness :
    Config.add_language ⟨"d", Format.JSON, []⟩ "en"
      = (.ok (), ⟨"d", Format.JSON, ["en"]⟩) ∧
    (Config.add_language (Config.add_language ⟨"d", Format.JSON, []⟩ "en").2 "en").1
      = .error (.duplicateLanguage "en") :=
  ⟨( c8_theorem ⟨"d", Format.JSON, []⟩ "en").2.1 (by simp),
   ( c8_theorem ⟨"d", Format.JSON, []⟩ "en").2.2 rfl⟩

/-- C9: `set_directory` validates the resolved path before committing: on any
failure (current-directory error, path absent, path not a directory) the
returned error leaves the Config's directory unchanged, and the call succeeds
exactly when the current directory resolves and the resolved path is a
directory, in which case only the directory field is replaced by the resolved
path. -/
theorem c9_theorem :
    ∀ (fs : String → FsEntry) (cwd : Run String) (c : Config) (nd : String),
      (∀ e, (Config.set_directory fs cwd c nd).1 = .error e →
        (Config.set_directory fs cwd c nd).2 = c) ∧
      (∀ base, cwd = .ok base → fs (pathJoin base nd) = .dir →
        Config.set_directory fs cwd c nd
          = (.ok (), ⟨pathJoin base nd, c.format, c.languages⟩)) ∧
      ((Config.set_directory fs cwd c nd).1 = .ok () →
        ∃ base, cwd = .ok base ∧ fs (pathJoin base nd) = .dir ∧
          (Config.set_directory fs cwd c nd).2
            = ⟨pathJoin base nd, c.format, c.languages⟩) := by
  intro fs cwd c nd
  refine ⟨?_, ?_, ?_⟩
  · intro e herr
    cases cwd with
    | ok base =>
      cases hfs : fs (pathJoin base nd) with
      | absent => simp [Config.set_directory, hfs]
      | dir => simp [Config.set_directory, hfs] at herr
      | file content => simp [Config.set_directory, hfs]
    | err => rfl
    | panicked => rfl
  · intro base hbase hdir
    subst hbase
    simp [Config.set_directory, hdir]
  · intro hok
    cases cwd with
    | ok base =>
      cases hfs : fs (pathJoin base nd) with
      | absent => simp [Config.set_directory, hfs] at hok
      | dir =>
        exact ⟨base, rfl, hfs, by simp [Config.set_directory, hfs]⟩
      | file content => simp [Config.set_directory, hfs] at hok
    | err => simp [Config.set_directory] at hok
    | panicked => simp [Config.set_directory] at hok

/-- C9 witness: with the working directory `/w`, setting the directory to the
existing directory `new` succeeds and replaces only the directory field, and
the success case is certified by the validation conjunct. -/
theorem c9_witness :
    Config.set_directory (fun p => if p = "/w/new" then FsEntry.dir else FsEntry.absent)
      (Run.ok "/w") ⟨"/w/old", Format.JSON, ["en"]⟩ "new"
      = (.ok (), ⟨pathJoin "/w" "new", Format.JSON, ["en"]⟩) :=
  ( c9_theorem (fun p => if p = "/w/new" then FsEntry.dir else FsEntry.absent)
    (Run.ok "/w") ⟨"/w/old", Format.JSON, ["en"]⟩ "new").2.1 "/w" rfl (by rfl)

/-- C10: every `LanguageTexts` produced by `LanguageTexts::new` holds the
Object variant, so `try_get_text` never reaches the panic of the internal
`get_object().unwrap()`: for every key it returns an explicit `Some`/`None`
result. -/
theorem c10_theorem :
    ∀ (lang : String) (v : Value) (t : LanguageTexts) (text : String),
      LanguageTexts.new lang v = .ok t →
      ∃ o, t.try_get_text text = Run.ok o := by
  intro lang v t text hnew
  cases v with
  | object m =>
    have ht : t = ⟨lang, .object m⟩ := by
      simp [LanguageTexts.new, Value.is_object] at hnew
      exact hnew.symm
    subst ht
    exact ⟨lookupAL m text, by
      simp [LanguageTexts.try_get_text, Value.is_object, Value.get_object]⟩
  | string s₁ => simp [LanguageTexts.new, Value.is_object] at hnew
  | array xs => simp [LanguageTexts.new, Value.is_object] at hnew

/-- C10 witness: a `LanguageTexts` constructed from a one-entry object returns
an explicit result for any key, never the panic outcome. -/
theorem c10_witness :
    ∃ o, (LanguageTexts.mk "en" (Value.object [("a", Value.string "b")])).try_get_text "a"
      = Run.ok o :=
  c10_theorem "en" (Value.object [("a", Value.string "b")])
    ⟨"en", Value.object [("a", Value.string "b")]⟩ "a" rfl

/-- C1 counterexample: with the crate compiled with `with-json` and a Config
whose Format is TOML, `try_get_language` probes `d/en.json` and fails with the
file-not-found error even though the file named with the Config format's
extension, `d/en.toml`, exists on disk — the probed path does not use the
extension of the Config's format. -/
theorem c1_counterexample :
    (Languages.try_get_language ⟨true, false⟩ (fun _ => Run.err)
        (fun p => if p = "d/en.toml" then FsEntry.file "c" else FsEntry.absent)
        (Languages.new ⟨"d", Format.TOML, ["en"]⟩) "en").1
      = .ok (.error (.fileNotFound "d/en.json")) ∧
    (fun p => if p = "d/en.toml" then FsEntry.file "c" else FsEntry.absent)
        (pathJoin (Config.mk "d" Format.TOML ["en"]).get_directory
          ("en" ++ (Config.mk "d" Format.TOML ["en"]).get_format.get_file_extension))
      = FsEntry.file "c" :=
  ⟨rfl, rfl⟩

/-- C1 corrected: on a cache miss `try_get_language` probes exactly the path
obtained by joining the configured directory with the code followed by the
compile-time feature extension (`.json` when `with-json` is set, else `.toml`
when `with-toml` is set, else the empty string); the outcome, the cache and
the reads are invariant under changing the Config's Format, which is never
consulted, even though `Format::get_file_extension` maps JSON to `.json` and
TOML to `.toml` as the claim states. -/
theorem c1_theorem :
    (∀ (feats : Features) (parse : String → Run Value) (fs : String → FsEntry)
       (d : String) (fmt₁ fmt₂ : Format) (ls : List String)
       (cache : List LanguageTexts) (lang : String),
      (Languages.try_get_language feats parse fs ⟨⟨d, fmt₁, ls⟩, cache⟩ lang).1
        = (Languages.try_get_language feats parse fs ⟨⟨d, fmt₂, ls⟩, cache⟩ lang).1 ∧
      (Languages.try_get_language feats parse fs ⟨⟨d, fmt₁, ls⟩, cache⟩ lang).2.1.langs
        = (Languages.try_get_language feats parse fs ⟨⟨d, fmt₂, ls⟩, cache⟩ lang).2.1.langs ∧
      (Languages.try_get_language feats parse fs ⟨⟨d, fmt₁, ls⟩, cache⟩ lang).2.2
        = (Languages.try_get_language feats parse fs ⟨⟨d, fmt₂, ls⟩, cache⟩ lang).2.2) ∧
    (∀ (feats : Features) (parse : String → Run Value) (fs : String → FsEntry)
       (s : Languages) (lang : String),
      (Languages.try_get_language feats parse fs s lang).2.2 = [] ∨
      (Languages.try_get_language feats parse fs s lang).2.2
        = [pathJoin s.config.get_directory (lang ++ langFileExtension feats)]) ∧
    (∀ b, langFileExtension ⟨true, b⟩ = ".json") ∧
    langFileExtension ⟨false, true⟩ = ".toml" ∧
    langFileExtension ⟨false, false⟩ = "" ∧
    Format.get_file_extension .JSON = ".json" ∧
    Format.get_file_extension .TOML = ".toml" := by
  refine ⟨?_, ?_, fun b => rfl, rfl, rfl, rfl, rfl⟩
  · intro feats parse fs d fmt₁ fmt₂ ls cache lang
    by_cases hmem : lang ∈ ls
    · cases hfind : cache.find? (fun u => u.get_language == lang) with
      | some t =>
        refine ⟨?_, ?_, ?_⟩ <;>
          simp [Languages.try_get_language, Config.get_languages, hmem, hfind]
      | none =>
        cases hfs : fs (pathJoin d (lang ++ langFileExtension feats)) with
        | absent =>
          refine ⟨?_, ?_, ?_⟩ <;>
            simp [Languages.try_get_language, Config.get_languages,
              Config.get_directory, hmem, hfind, hfs]
        | dir =>
          refine ⟨?_, ?_, ?_⟩ <;>
            simp [Languages.try_get_language, Config.get_languages,
              Config.get_directory, hmem, hfind, hfs]
        | file content =>
          cases hparse : parse content with
          | err =>
            refine ⟨?_, ?_, ?_⟩ <;>
              simp [Languages.try_get_language, Config.get_languages,
                Config.get_directory, hmem, hfind, hfs, hparse]
          | panicked =>
            refine ⟨?_, ?_, ?_⟩ <;>
              simp [Languages.try_get_language, Config.get_languages,
                Config.get_directory, hmem, hfind, hfs, hparse]
          | ok v =>
            by_cases hobj : v.is_object = true
            · refine ⟨?_, ?_, ?_⟩ <;>
                simp [Languages.try_get_language, Config.get_languages,
                  Config.get_directory, LanguageTexts.new, hmem, hfind, hfs, hparse, hobj]
            · refine ⟨?_, ?_, ?_⟩ <;>
                simp [Languages.try_get_language, Config.get_languages,
                  Config.get_directory, LanguageTexts.new, hmem, hfind, hfs, hparse, hobj]
    · refine ⟨?_, ?_, ?_⟩ <;>
        simp [Languages.try_get_language, Config.get_languages, hmem]
  · intro feats parse fs s lang
    by_cases hcont : s.config.get_languages.contains lang = true
    · have hmem : lang ∈ s.config.get_languages := by simpa using hcont
      cases hfind : s.langs.find? (fun u => u.get_language == lang) with
      | some t => left; simp [Languages.try_get_language, hmem, hfind]
      | none =>
        cases hfs : fs (pathJoin s.config.get_directory (lang ++ langFileExtension feats)) with
        | absent => left; simp [Languages.try_get_language, hmem, hfind, hfs]
        | dir => left; simp [Languages.try_get_language, hmem, hfind, hfs]
        | file content =>
          right
          cases hparse : parse content with
          | err => simp [Languages.try_get_language, hmem, hfind, hfs, hparse]
          | panicked => simp [Languages.try_get_language, hmem, hfind, hfs, hparse]
          | ok v =>
            by_cases hobj : v.is_object = true
            · simp [Languages.try_get_language, LanguageTexts.new,
                hmem, hfind, hfs, hparse, hobj]
            · simp [Languages.try_get_language, LanguageTexts.new,
                hmem, hfind, hfs, hparse, hobj]
    · have hmem : lang ∉ s.config.get_languages := by
        intro h
        exact hcont (by simpa using h)
      left
      simp [Languages.try_get_language, hmem]

/-- C4 counterexample: the enabled code `en` resolves to an existing file
`d/en.json` whose JSON content `"Hi"` parses to a string, so resolution fails
with the not-an-object error and nothing is cached; calling twice returns
value-equal error results but each of the two calls reads the file once, so
the file is read twice for the same code — not at most once. -/
theorem c4_counterexample :
    Languages.try_get_language ⟨true, false⟩
        (fun c => fromStringJson (if c = "\"Hi\"" then Run.ok (JsonValue.str "Hi") else Run.err))
        (fun p => if p = "d/en.json" then FsEntry.file "\"Hi\"" else FsEntry.absent)
        (Languages.new ⟨"d", Format.JSON, ["en"]⟩) "en"
      = (.ok (.error .notAnObject), Languages.new ⟨"d", Format.JSON, ["en"]⟩, ["d/en.json"]) ∧
    (Languages.try_get_language ⟨true, false⟩
        (fun c => fromStringJson (if c = "\"Hi\"" then Run.ok (JsonValue.str "Hi") else Run.err))
        (fun p => if p = "d/en.json" then FsEntry.file "\"Hi\"" else FsEntry.absent)
        (Languages.try_get_language ⟨true, false⟩
          (fun c => fromStringJson (if c = "\"Hi\"" then Run.ok (JsonValue.str "Hi") else Run.err))
          (fun p => if p = "d/en.json" then FsEntry.file "\"Hi\"" else FsEntry.absent)
          (Languages.new ⟨"d", Format.JSON, ["en"]⟩) "en").2.1 "en").2.2
      = ["d/en.json"] :=
  ⟨rfl, rfl⟩

/-- C4 corrected: a cache hit for an enabled code returns the cached entry as
is, with the state unchanged and no file read, for every file system; two
consecutive calls with the same code return value-equal results; and whenever
the first call succeeds, the second call is a cache hit that performs no file
read — so the file is read at most once per code across the two calls.  (A
failed resolution is not cached, and a later call reads the file again, as the
counterexample shows.) -/
theorem c4_theorem :
    (∀ (feats : Features) (parse : String → Run Value) (fs : String → FsEntry)
       (s : Languages) (lang : String) (t : LanguageTexts),
      lang ∈ s.config.get_languages →
      s.langs.find? (fun u => u.get_language == lang) = some t →
      Languages.try_get_language feats parse fs s lang = (.ok (.ok t), s, [])) ∧
    (∀ (feats : Features) (parse : String → Run Value) (fs : String → FsEntry)
       (s : Languages) (lang : String),
      (Languages.try_get_language feats parse fs
        (Languages.try_get_language feats parse fs s lang).2.1 lang).1
        = (Languages.try_get_language feats parse fs s lang).1) ∧
    (∀ (feats : Features) (parse : String → Run Value) (fs : String → FsEntry)
       (s : Languages) (lang : String) (t : LanguageTexts),
      (Languages.try_get_language feats parse fs s lang).1 = .ok (.ok t) →
      Languages.try_get_language feats parse fs
        (Languages.try_get_language feats parse fs s lang).2.1 lang
        = (.ok (.ok t), (Languages.try_get_language feats parse fs s lang).2.1, [])) :=
  ⟨fun feats parse fs s lang t hmem hfind =>
    try_get_language_hit feats parse fs s lang t hmem hfind,
   fun feats parse fs s lang => try_get_language_idem feats parse fs s lang,
   fun feats parse fs s lang t h => try_get_language_replay feats parse fs s lang t h⟩

/-- C4 witness: with `en` enabled and already cached, the call returns the
cached entry, leaves the state unchanged and reads nothing; the repeated call
returns the same entry; and the success of the first call makes the second a
read-free hit. -/
theorem c4_witness :
    Languages.try_get_language ⟨true, false⟩ (fun _ => Run.err) (fun _ => FsEntry.absent)
      ⟨⟨"d", Format.JSON, ["en"]⟩, [⟨"en", Value.object []⟩]⟩ "en"
      = (.ok (.ok ⟨"en", Value.object []⟩),
         ⟨⟨"d", Format.JSON, ["en"]⟩, [⟨"en", Value.object []⟩]⟩, []) ∧
    (Languages.try_get_language ⟨true, false⟩ (fun _ => Run.err) (fun _ => FsEntry.absent)
      (Languages.try_get_language ⟨true, false⟩ (fun _ => Run.err) (fun _ => FsEntry.absent)
        ⟨⟨"d", Format.JSON, ["en"]⟩, [⟨"en", Value.object []⟩]⟩ "en").2.1 "en").1
      = (Languages.try_get_language ⟨true, false⟩ (fun _ => Run.err) (fun _ => FsEntry.absent)
        ⟨⟨"d", Format.JSON, ["en"]⟩, [⟨"en", Value.object []⟩]⟩ "en").1 ∧
    Languages.try_get_language ⟨true, false⟩ (fun _ => Run.err) (fun _ => FsEntry.absent)
      (Languages.try_get_language ⟨true, false⟩ (fun _ => Run.err) (fun _ => FsEntry.absent)
        ⟨⟨"d", Format.JSON, ["en"]⟩, [⟨"en", Value.object []⟩]⟩ "en").2.1 "en"
      = (.ok (.ok ⟨"en", Value.object []⟩),
         (Languages.try_get_language ⟨true, false⟩ (fun _ => Run.err) (fun _ => FsEntry.absent)
           ⟨⟨"d", Format.JSON, ["en"]⟩, [⟨"en", Value.object []⟩]⟩ "en").2.1, []) :=
  ⟨c4_theorem.1 ⟨true, false⟩ (fun _ => Run.err) (fun _ => FsEntry.absent)
      ⟨⟨"d", Format.JSON, ["en"]⟩, [⟨"en", Value.object []⟩]⟩ "en" ⟨"en", Value.object []⟩
      (by decide) rfl,
   c4_theorem.2.1 ⟨true, false⟩ (fun _ => Run.err) (fun _ => FsEntry.absent)
      ⟨⟨"d", Format.JSON, ["en"]⟩, [⟨"en", Value.object []⟩]⟩ "en",
   c4_theorem.2.2 ⟨true, false⟩ (fun _ => Run.err) (fun _ => FsEntry.absent)
      ⟨⟨"d", Format.JSON, ["en"]⟩, [⟨"en", Value.object []⟩]⟩ "en" ⟨"en", Value.object []⟩
      rfl⟩

/-- C5: the cache invariant — at most one entry per language code, and every
cached `LanguageTexts` holding the Object variant — holds of a fresh
`Languages` and is preserved by `try_get_language` and by
`try_get_text_from_language`; moreover each operation either leaves the cache
unchanged or appends exactly one (object-payload) entry at the end, so entries
are never removed or updated. -/
theorem c5_theorem :
    (∀ config : Config, CacheInv (Languages.new config)) ∧
    (∀ (feats : Features) (parse : String → Run Value) (fs : String → FsEntry)
       (s : Languages) (lang : String), CacheInv s →
      CacheInv (Languages.try_get_language feats parse fs s lang).2.1 ∧
      ((Languages.try_get_language feats parse fs s lang).2.1.langs = s.langs ∨
       ∃ t, (Languages.try_get_language feats parse fs s lang).2.1.langs
              = s.langs ++ [t] ∧ t.texts.is_object = true)) ∧
    (∀ (feats : Features) (parse : String → Run Value) (fs : String → FsEntry)
       (s : Languages) (lang text : String), CacheInv s →
      CacheInv (Languages.try_get_text_from_language feats parse fs s lang text).2.1 ∧
      ((Languages.try_get_text_from_language feats parse fs s lang text).2.1.langs
          = s.langs ∨
       ∃ t, (Languages.try_get_text_from_language feats parse fs s lang text).2.1.langs
              = s.langs ++ [t] ∧ t.texts.is_object = true)) := by
  have hmain : ∀ (feats : Features) (parse : String → Run Value) (fs : String → FsEntry)
      (s : Languages) (lang : String), CacheInv s →
      CacheInv (Languages.try_get_language feats parse fs s lang).2.1 ∧
      ((Languages.try_get_language feats parse fs s lang).2.1.langs = s.langs ∨
       ∃ t, (Languages.try_get_language feats parse fs s lang).2.1.langs
              = s.langs ++ [t] ∧ t.texts.is_object = true) := by
    intro feats parse fs s lang hinv
    rcases try_get_language_state feats parse fs s lang with
      hstate | ⟨t, -, hlang, hobj, hstate, -, hfind, -⟩
    · rw [hstate]
      exact ⟨hinv, Or.inl rfl⟩
    · rw [hstate]
      have hsep : ∀ u ∈ s.langs, u.language ≠ t.language := by
        intro u hu
        have hne : ¬ (u.get_language == lang) = true :=
          List.find?_eq_none.mp hfind u hu
        have : u.language ≠ lang := by
          simpa [LanguageTexts.get_language] using hne
        rw [← hlang] at this
        exact this
      refine ⟨⟨?_, ?_⟩, Or.inr ⟨t, rfl, hobj⟩⟩
      · refine List.pairwise_append.mpr ⟨hinv.1, List.pairwise_singleton _ _, ?_⟩
        intro a ha b hb
        rw [List.mem_singleton.mp hb]
        exact hsep a ha
      · intro u hu
        rcases List.mem_append.mp hu with hu | hu
        · exact hinv.2 u hu
        · rw [List.mem_singleton.mp hu]
          exact hobj
  refine ⟨?_, hmain, ?_⟩
  · intro config
    exact ⟨List.Pairwise.nil, by intro t ht; simp [Languages.new] at ht⟩
  · intro feats parse fs s lang text hinv
    rw [(try_text_out feats parse fs s lang text).1]
    exact hmain feats parse fs s lang hinv

/-- C5 witness: the fresh instance satisfies the invariant, and one
`try_get_language` call on it (here a miss on an empty file system) preserves
the invariant and at most appends one object entry. -/
theorem c5_witness :
    CacheInv (Languages.new ⟨"d", Format.JSON, ["en"]⟩) ∧
    (CacheInv (Languages.try_get_language ⟨true, false⟩ (fun _ => Run.err)
        (fun _ => FsEntry.absent) (Languages.new ⟨"d", Format.JSON, ["en"]⟩) "en").2.1 ∧
      ((Languages.try_get_language ⟨true, false⟩ (fun _ => Run.err)
          (fun _ => FsEntry.absent) (Languages.new ⟨"d", Format.JSON, ["en"]⟩) "en").2.1.langs
          = (Languages.new ⟨"d", Format.JSON, ["en"]⟩).langs ∨
       ∃ t, (Languages.try_get_language ⟨true, false⟩ (fun _ => Run.err)
          (fun _ => FsEntry.absent) (Languages.new ⟨"d", Format.JSON, ["en"]⟩) "en").2.1.langs
          = (Languages.new ⟨"d", Format.JSON, ["en"]⟩).langs ++ [t] ∧
            t.texts.is_object = true)) :=
  ⟨c5_theorem.1 ⟨"d", Format.JSON, ["en"]⟩,
   c5_theorem.2.1 ⟨true, false⟩ (fun _ => Run.err) (fun _ => FsEntry.absent)
     (Languages.new ⟨"d", Format.JSON, ["en"]⟩) "en"
     ( c5_theorem.1 ⟨"d", Format.JSON, ["en"]⟩)⟩

/-- C6: `load` builds a `Languages` over the given Config and resolves each
enabled code in list order with fail-fast error propagation: on success the
returned instance carries the given Config and has a cache entry for every
enabled code; and for the resolution loop, a failing prefix makes the whole
run return that first failure unchanged, with the remaining codes never
attempted, while a succeeding prefix continues with the rest. -/
theorem c6_theorem :
    (∀ (feats : Features) (parse : String → Run Value) (fs : String → FsEntry)
       (cfg : Config) (L : Languages) (tr : List String),
      load feats parse fs cfg = (.ok (.ok L), tr) →
      L.config = cfg ∧
      ∀ lang ∈ cfg.get_languages, ∃ t,
        L.langs.find? (fun u => u.get_language == lang) = some t) ∧
    (∀ (feats : Features) (parse : String → Run Value) (fs : String → FsEntry)
       (xs ys : List String) (s s₁ : Languages) (tr : List String) (e : Err),
      loadLoop feats parse fs xs s = (.ok (.error e), s₁, tr) →
      loadLoop feats parse fs (xs ++ ys) s = (.ok (.error e), s₁, tr)) ∧
    (∀ (feats : Features) (parse : String → Run Value) (fs : String → FsEntry)
       (xs ys : List String) (s s₁ : Languages) (tr : List String),
      loadLoop feats parse fs xs s = (.ok (.ok ()), s₁, tr) →
      loadLoop feats parse fs (xs ++ ys) s
        = ((loadLoop feats parse fs ys s₁).1, (loadLoop feats parse fs ys s₁).2.1,
           tr ++ (loadLoop feats parse fs ys s₁).2.2)) := by
  refine ⟨?_, loadLoop_append_err, loadLoop_append_ok⟩
  intro feats parse fs cfg L tr h
  unfold load at h
  rcases hloop : loadLoop feats parse fs cfg.get_languages (Languages.new cfg)
    with ⟨r, s₂, tr₂⟩
  rw [hloop] at h
  rcases r with x | - | -
  · rcases x with e | u
    · simp at h
    · simp only [Prod.mk.injEq, Run.ok.injEq, Except.ok.injEq] at h
      obtain ⟨hL, -⟩ := h
      subst hL
      obtain ⟨hconf, -, hall⟩ := loadLoop_ok_cached feats parse fs cfg.get_languages
        (Languages.new cfg) s₂ tr₂ hloop
      exact ⟨hconf, hall⟩
  · simp at h
  · simp at h

/-- C6 witness: loading a Config enabling only `en` over a file system holding
a valid `d/en.json` succeeds; the resulting instance carries the Config and
its cache resolves `en`. -/
theorem c6_witness :
    (⟨⟨"d", Format.JSON, ["en"]⟩,
      [⟨"en", Value.object [("k", Value.string "v")]⟩]⟩ : Languages).config
      = ⟨"d", Format.JSON, ["en"]⟩ ∧
    ∃ t, (⟨⟨"d", Format.JSON, ["en"]⟩,
        [⟨"en", Value.object [("k", Value.string "v")]⟩]⟩ : Languages).langs.find?
        (fun u => u.get_language == "en") = some t :=
  ⟨( c6_theorem.1 ⟨true, false⟩
      (fun c => fromStringJson
        (if c = "x" then Run.ok (JsonValue.obj [("k", JsonValue.str "v")]) else Run.err))
      (fun p => if p = "d/en.json" then FsEntry.file "x" else FsEntry.absent)
      ⟨"d", Format.JSON, ["en"]⟩
      ⟨⟨"d", Format.JSON, ["en"]⟩, [⟨"en", Value.object [("k", Value.string "v")]⟩]⟩
      ["d/en.json"] rfl).1,
   ( c6_theorem.1 ⟨true, false⟩
      (fun c => fromStringJson
        (if c = "x" then Run.ok (JsonValue.obj [("k", JsonValue.str "v")]) else Run.err))
      (fun p => if p = "d/en.json" then FsEntry.file "x" else FsEntry.absent)
      ⟨"d", Format.JSON, ["en"]⟩
      ⟨⟨"d", Format.JSON, ["en"]⟩, [⟨"en", Value.object [("k", Value.string "v")]⟩]⟩
      ["d/en.json"] rfl).2 "en" (by decide)⟩

/-- C7: under the cache invariant, `try_get_text_from_language` is
`try_get_language` followed by a single-level key lookup in the resolved
entry's object: it propagates any error of `try_get_language` unchanged,
every resolved entry is an object, the result on success is exactly the
association-list lookup (Some of the stored value when the key is present,
None — not an error — when it is absent), and the resulting state is the one
produced by `try_get_language`. -/
theorem c7_theorem :
    ∀ (feats : Features) (parse : String → Run Value) (fs : String → FsEntry)
      (s : Languages) (lang text : String), CacheInv s →
      (∀ e, (Languages.try_get_language feats parse fs s lang).1 = .ok (.error e) →
        (Languages.try_get_text_from_language feats parse fs s lang text).1
          = .ok (.error e)) ∧
      (∀ t, (Languages.try_get_language feats parse fs s lang).1 = .ok (.ok t) →
        t.texts.is_object = true) ∧
      (∀ t m, (Languages.try_get_language feats parse fs s lang).1 = .ok (.ok t) →
        t.texts = .object m →
        (Languages.try_get_text_from_language feats parse fs s lang text).1
          = .ok (.ok (lookupAL m text))) ∧
      (Languages.try_get_text_from_language feats parse fs s lang text).2.1
        = (Languages.try_get_language feats parse fs s lang).2.1 := by
  intro feats parse fs s lang text hinv
  refine ⟨?_, ?_, ?_, (try_text_out feats parse fs s lang text).1⟩
  · intro e he
    rcases hL : Languages.try_get_language feats parse fs s lang with ⟨r, s₁, tr⟩
    rw [hL] at he
    rcases r with x | - | -
    · rcases x with e₁ | t
      · simp only at he
        simp only [Run.ok.injEq, Except.error.injEq] at he
        subst he
        simp [Languages.try_get_text_from_language, hL]
      · simp at he
    · simp at he
    · simp at he
  · intro t ht
    exact try_get_language_ok_object feats parse fs s lang t hinv ht
  · intro t m ht hm
    rcases hL : Languages.try_get_language feats parse fs s lang with ⟨r, s₁, tr⟩
    rw [hL] at ht
    rcases r with x | - | -
    · rcases x with e₁ | t₁
      · simp at ht
      · simp only [Run.ok.injEq, Except.ok.injEq] at ht
        subst ht
        have htext : t₁.try_get_text text = .ok (lookupAL m text) := by
          simp [LanguageTexts.try_get_text, hm, Value.is_object, Value.get_object]
        simp [Languages.try_get_text_from_language, hL, htext]
    · simp at ht
    · simp at ht

/-- C7 witness: on a cache holding the entry `en` with object
`[("k", "v")]`, the composed call returns Some of the stored value for the
present key, and its final state is that of `try_get_language`. -/
theorem c7_witness :
    (Languages.try_get_text_from_language ⟨true, false⟩ (fun _ => Run.err)
        (fun _ => FsEntry.absent)
        ⟨⟨"d", Format.JSON, ["en"]⟩, [⟨"en", Value.object [("k", Value.string "v")]⟩]⟩
        "en" "k").1
      = .ok (.ok (lookupAL [("k", Value.string "v")] "k")) ∧
    (Languages.try_get_text_from_language ⟨true, false⟩ (fun _ => Run.err)
        (fun _ => FsEntry.absent)
        ⟨⟨"d", Format.JSON, ["en"]⟩, [⟨"en", Value.object [("k", Value.string "v")]⟩]⟩
        "en" "k").2.1
      = (Languages.try_get_language ⟨true, false⟩ (fun _ => Run.err)
        (fun _ => FsEntry.absent)
        ⟨⟨"d", Format.JSON, ["en"]⟩, [⟨"en", Value.object [("k", Value.string "v")]⟩]⟩
        "en").2.1 :=
  have h := c7_theorem ⟨true, false⟩ (fun _ => Run.err) (fun _ => FsEntry.absent)
    ⟨⟨"d", Format.JSON, ["en"]⟩, [⟨"en", Value.object [("k", Value.string "v")]⟩]⟩
    "en" "k"
    ⟨List.pairwise_singleton _ _, by
      intro t ht
      rw [List.mem_singleton.mp ht]
      rfl⟩
  ⟨h.2.2.1 ⟨"en", Value.object [("k", Value.string "v")]⟩ [("k", Value.string "v")]
    rfl rfl, h.2.2.2⟩

end LanguagesRs
